import Mathlib

/-!
Verification of the route-optimization engine of CoordSorter-Yanyun
(src/main.py), shallowly embedded in Lean 4.

Floating-point arithmetic of the source is idealized as real arithmetic:
`np.linalg.norm` becomes `Real.sqrt` of the sum of squares, `np.exp`
becomes `Real.exp`.  Point coordinates are real numbers; tours are lists
of natural-number point indices.  The pseudo-random generator of the
annealing strategy is modelled as an explicit stream of draws.
-/

namespace CoordSorter

/-- A 3D point `(x, y, z)`; the free-form label of a coordinate record is
not used in any distance computation and is omitted. -/
structure P3 where
  x : ℝ
  y : ℝ
  z : ℝ

instance : Inhabited P3 := ⟨⟨0, 0, 0⟩⟩

/-- Array access `points[i]` as the source's numpy indexing; out-of-range reads are
mapped to the origin (they never occur on the paths the engine builds). -/
def pt (points : List P3) (i : ℕ) : P3 := points.getD i ⟨0, 0, 0⟩

/-- The metric `np.linalg.norm(a - b)` on 3D rows: Euclidean 3D distance. -/
noncomputable def dist3 (a b : P3) : ℝ :=
  Real.sqrt ((a.x - b.x) ^ 2 + (a.y - b.y) ^ 2 + (a.z - b.z) ^ 2)

/-- The metric `np.linalg.norm` on the XY projection: the planar distance
used by `optimize_xy_only`. -/
noncomputable def dist2 (a b : P3) : ℝ :=
  Real.sqrt ((a.x - b.x) ^ 2 + (a.y - b.y) ^ 2)

/-- The sum in `_calculate_distance_3d`:
`sum(np.linalg.norm(points[path[i]] - points[path[i-1]]) for i in range(1, len(path)))`. -/
noncomputable def pathSum (points : List P3) : List ℕ → ℝ
  | [] => 0
  | [_] => 0
  | i :: j :: rest => dist3 (pt points i) (pt points j) + pathSum points (j :: rest)

/-- The Tour Evaluator `_calculate_distance_3d(points, path)`.
The generator ranges over `i in range(1, len(path))`, so for a path of
length `< 2` no array access happens and the sum of the empty generator,
`0`, is returned; for a path of length `≥ 2` every entry of `path` is used
as a numpy index and an out-of-range entry raises `IndexError`, modelled
as `none`. -/
noncomputable def calcDistance3d (points : List P3) (path : List ℕ) : Option ℝ :=
  if 2 ≤ path.length ∧ ¬ (path.all fun i => i < points.length) then none
  else some (pathSum points path)

/-- Python's `int()` applied to a float: truncation toward zero. -/
noncomputable def pyInt (x : ℝ) : ℤ := if 0 ≤ x then ⌊x⌋ else ⌈x⌉

/-- The `distance_callback` of `optimize_with_ortools`:
`int(np.linalg.norm(locations[from_node] - locations[to_node]) * 100)`. -/
noncomputable def ortoolsCost (points : List P3) (i j : ℕ) : ℤ :=
  pyInt (dist3 (pt points i) (pt points j) * 100)

/-- The `distance_callback` of `optimize_xy_only`:
`int(np.linalg.norm(locations_2d[from_node] - locations_2d[to_node]) * 100)`. -/
noncomputable def xyCost (points : List P3) (i j : ℕ) : ℤ :=
  pyInt (dist2 (pt points i) (pt points j) * 100)

/-- The index `np.argmin` of a list of floats: the position of the first occurrence
of the minimum (`0` on the empty list, which never arises in the source). -/
noncomputable def argminIdx : List ℝ → ℕ
  | [] => 0
  | [_] => 0
  | x :: y :: rest =>
    let k := argminIdx (y :: rest)
    if (y :: rest).getD k 0 < x then k + 1 else 0

theorem argminIdx_lt_length : ∀ (l : List ℝ), l ≠ [] → argminIdx l < l.length
  | [], h => absurd rfl h
  | [_], _ => Nat.zero_lt_one
  | x :: y :: rest, _ => by
    simp only [argminIdx]
    by_cases hc : (y :: rest).getD (argminIdx (y :: rest)) 0 < x
    · simp only [hc, if_true, List.length_cons]
      exact Nat.succ_lt_succ (argminIdx_lt_length (y :: rest) (by simp))
    · simp only [hc, if_false, List.length_cons]
      exact Nat.succ_pos _

/-- The greedy selection loop of `optimize_with_nearest_neighbor`:
while `unvisited` is nonempty, compute the list of distances from the
current point to the unvisited points, take `np.argmin`, append the
corresponding index, and `pop` it from `unvisited`. -/
noncomputable def nnLoop (points : List P3) (current : ℕ) (unvisited : List ℕ) : List ℕ :=
  match unvisited with
  | [] => []
  | x :: xs =>
    let ds := (x :: xs).map fun i => dist3 (pt points current) (pt points i)
    let m := argminIdx ds
    let nearest := (x :: xs).getD m 0
    nearest :: nnLoop points nearest ((x :: xs).eraseIdx m)
termination_by unvisited.length
decreasing_by
  have hm := argminIdx_lt_length
    ((x :: xs).map fun i => dist3 (pt points current) (pt points i)) (by simp)
  simp only [List.map_cons, List.length_map, List.length_cons] at hm ⊢
  have h2 := List.length_eraseIdx_add_one (l := x :: xs) (by simpa using hm)
  simp only [List.length_cons] at h2
  omega

/-- The strategy `optimize_with_nearest_neighbor`: start the path at index 0 with
`unvisited = list(range(1, n))` and run the greedy loop. -/
noncomputable def optimize_with_nearest_neighbor (points : List P3) : List ℕ :=
  0 :: nnLoop points 0 (List.range' 1 (points.length - 1))

/-! ## Simulated annealing (`optimize_with_simulated_annealing`) -/

/-- One iteration's pseudo-random material: the two raw values of
`np.random.randint(0, n, 2)` and the uniform draw of `np.random.random()`. -/
structure Draw where
  a : ℕ
  b : ℕ
  u : ℝ

/-- The mutable locals of the annealing loop. -/
structure SAState where
  currentPath : List ℕ
  currentDistance : ℝ
  bestPath : List ℕ
  bestDistance : ℝ

/-- The inner `calculate_distance(path)`: the open-path sum of
`_calculate_distance_3d` plus `np.linalg.norm(points[path[-1]] - points[path[0]])`,
i.e. the closed-tour length. -/
noncomputable def calculate_distance (points : List P3) (path : List ℕ) : ℝ :=
  pathSum points path + dist3 (pt points (path.getLastD 0)) (pt points (path.headD 0))

/-- The 2-opt move `new_path[i:j+1] = reversed(new_path[i:j+1])` on a copy
of the path. -/
def reverseSegment (l : List ℕ) (i j : ℕ) : List ℕ :=
  l.take i ++ ((l.drop i).take (j + 1 - i)).reverse ++ l.drop (j + 1)

/-- The candidate path of one annealing iteration, from the sorted pair of
raw index draws. -/
def saCandidate (st : SAState) (d : Draw) : List ℕ :=
  reverseSegment st.currentPath (min d.a d.b) (max d.a d.b)

/-- The Metropolis acceptance test of the source:
`delta < 0 or np.random.random() < np.exp(-delta / temp)`. -/
noncomputable def saAccept (points : List P3) (temp : ℝ) (d : Draw) (st : SAState) : Prop :=
  let delta := calculate_distance points (saCandidate st d) - st.currentDistance
  delta < 0 ∨ d.u < Real.exp (-delta / temp)

open Classical in
/-- One iteration of the inner annealing loop: draw `i ≤ j`; skip when
`i == j`; otherwise build the 2-opt candidate, run the Metropolis test, and
on acceptance move to the candidate, updating the incumbent best when the
new current distance strictly improves on it. -/
noncomputable def saIter (points : List P3) (temp : ℝ) (d : Draw) (st : SAState) : SAState :=
  if min d.a d.b = max d.a d.b then st
  else
    let newPath := saCandidate st d
    let newDist := calculate_distance points newPath
    if saAccept points temp d st then
      if newDist < st.bestDistance then
        ⟨newPath, newDist, newPath, newDist⟩
      else
        { st with currentPath := newPath, currentDistance := newDist }
    else st

/-- The inner loop `for iter_idx in range(iterations_per_temp)`, consuming
draws `rng c, rng (c+1), …`. -/
noncomputable def saInner (points : List P3) (rng : ℕ → Draw) (temp : ℝ) :
    ℕ → ℕ → SAState → SAState
  | 0, _, st => st
  | k + 1, c, st => saInner points rng temp k (c + 1) (saIter points temp (rng c) st)

/-- The outer loop `while temp > final_temp: … ; temp *= alpha`, with an
explicit fuel bound; the boolean records whether the loop condition failed
within the given fuel (it always does, see the termination theorem). -/
noncomputable def saOuter (points : List P3) (rng : ℕ → Draw) (iters : ℕ) :
    ℕ → ℝ → ℕ → SAState → SAState × Bool
  | 0, temp, _, st => if temp > 0.01 then (st, false) else (st, true)
  | fuel + 1, temp, c, st =>
    if temp > 0.01 then
      saOuter points rng iters fuel (temp * 0.95) (c + iters)
        (saInner points rng temp iters c st)
    else (st, true)

/-- The initial annealing state: `current_path = list(range(n))`, its
closed-tour distance, and best initialized to current. -/
noncomputable def saInit (points : List P3) : SAState :=
  ⟨List.range points.length,
   calculate_distance points (List.range points.length),
   List.range points.length,
   calculate_distance points (List.range points.length)⟩

/-- Fuel amply covering the cooling schedule from `100.0` down to `0.01`
at rate `0.95` (the loop needs 180 coolings). -/
def saFuel : ℕ := 200

/-- The strategy `optimize_with_simulated_annealing`: `initial_temp = 100.0`,
`final_temp = 0.01`, `alpha = 0.95`, `iterations_per_temp = max(100, n*2)`;
returns the best path found, its closed-tour distance, and the
loop-termination flag of the fuelled outer loop. -/
noncomputable def optimize_with_simulated_annealing (points : List P3) (rng : ℕ → Draw) :
    (List ℕ × ℝ) × Bool :=
  let res := saOuter points rng (max 100 (points.length * 2)) saFuel 100 0 (saInit points)
  ((res.1.bestPath, res.1.bestDistance), res.2)

/-! ## Orchestrator (`run_optimization`) -/

/-- The error outcomes of a `run_optimization` call. -/
inductive OptError
  | insufficientPoints
  | unknownStrategy
deriving DecidableEq

/-- The application state touched by an optimization run: the loaded
coordinate records (coordinates only; labels are irrelevant to the engine)
and the stored `self.optimized_path` (initially `[]`). -/
structure AppState where
  coordinates : List P3
  optimized_path : List ℕ

/-- The orchestrator `run_optimization`: `_check_coordinates` rejects fewer than 2 points
before any strategy dispatch; otherwise dispatch on the combo-box text.
The two OR-Tools strategies delegate the search to the external solver,
modelled as an opaque oracle `solver`; when it yields no solution the
stored path is unchanged. -/
noncomputable def run_optimization (st : AppState) (algorithm : String)
    (rng : ℕ → Draw) (solver : List P3 → Option (List ℕ)) :
    AppState × Option OptError :=
  if st.coordinates.length < 2 then (st, some .insufficientPoints)
  else if algorithm = "平面优化 (计算高效)" then
    (match solver st.coordinates with
     | some path => { st with optimized_path := path }
     | none => st, none)
  else if algorithm = "智能优化 (OR-Tools)" then
    (match solver st.coordinates with
     | some path => { st with optimized_path := path }
     | none => st, none)
  else if algorithm = "快速优化 (最近邻算)" then
    ({ st with optimized_path := optimize_with_nearest_neighbor st.coordinates }, none)
  else if algorithm = "全局优化 (模拟退火)" then
    ({ st with optimized_path := (optimize_with_simulated_annealing st.coordinates rng).1.1 },
     none)
  else (st, some .unknownStrategy)

/-! ## Reference greedy algorithm, transcribed from the spec (§4.3)

These definitions follow the specification's words, to be compared with
the source-derived `optimize_with_nearest_neighbor`: "from the current
last tour point, scan all unvisited points, select the one with minimum
metric distance (ties broken by lowest index, for determinism), append it
to the tour, remove it from unvisited". -/

open Classical in
/-- Select from a nonempty candidate list the index of minimum distance,
ties broken by the lowest index (the lexicographically minimal
`(distance, index)` pair). -/
noncomputable def specSelect (dfun : ℕ → ℝ) : List ℕ → ℕ
  | [] => 0
  | [x] => x
  | x :: y :: rest =>
    let m := specSelect dfun (y :: rest)
    if dfun m < dfun x ∨ (dfun m = dfun x ∧ m < x) then m else x

theorem specSelect_mem (dfun : ℕ → ℝ) :
    ∀ (u : List ℕ), u ≠ [] → specSelect dfun u ∈ u
  | [], h => absurd rfl h
  | [x], _ => by simp [specSelect]
  | x :: y :: rest, _ => by
    simp only [specSelect]
    by_cases hc : dfun (specSelect dfun (y :: rest)) < dfun x ∨
        (dfun (specSelect dfun (y :: rest)) = dfun x ∧ specSelect dfun (y :: rest) < x)
    · simp only [hc, if_true]
      exact List.mem_cons_of_mem x (specSelect_mem dfun (y :: rest) (by simp))
    · simp [hc]

/-- The spec's greedy loop: append the selected unvisited index and remove
it (by value) from the unvisited list. -/
noncomputable def specLoop (points : List P3) (current : ℕ) (u : List ℕ) : List ℕ :=
  match u with
  | [] => []
  | x :: xs =>
    let m := specSelect (fun i => dist3 (pt points current) (pt points i)) (x :: xs)
    m :: specLoop points m ((x :: xs).erase m)
termination_by u.length
decreasing_by
  have hmem := specSelect_mem
    (fun i => dist3 (pt points current) (pt points i)) (x :: xs) (by simp)
  have hlen := List.length_erase_of_mem hmem
  simp only [List.length_cons] at hlen ⊢
  omega

/-- The spec's nearest-neighbor algorithm: start at index 0 with
unvisited `1..n-1`. -/
noncomputable def nnSpec (points : List P3) : List ℕ :=
  0 :: specLoop points 0 (List.range' 1 (points.length - 1))

/-! ## Helper lemmas: the greedy step -/

theorem argminIdx_cons_cons (x y : ℝ) (rest : List ℝ) :
    argminIdx (x :: y :: rest) =
      if (y :: rest).getD (argminIdx (y :: rest)) 0 < x
      then argminIdx (y :: rest) + 1 else 0 := rfl

theorem specSelect_cons_cons (f : ℕ → ℝ) (x y : ℕ) (rest : List ℕ) :
    specSelect f (x :: y :: rest) =
      if f (specSelect f (y :: rest)) < f x ∨
         (f (specSelect f (y :: rest)) = f x ∧ specSelect f (y :: rest) < x)
      then specSelect f (y :: rest) else x := rfl

theorem getD_map_eq (f : ℕ → ℝ) :
    ∀ (u : List ℕ) (k : ℕ), k < u.length → (u.map f).getD k 0 = f (u.getD k 0)
  | [], k, h => by simp at h
  | _ :: _, 0, _ => by simp
  | x :: xs, k + 1, h => by
    simp only [List.map_cons, List.getD_cons_succ]
    exact getD_map_eq f xs k (by simpa using h)

/-- On a strictly ascending unvisited list, `np.argmin` over the distance
list selects exactly the element the spec prescribes (minimum distance,
ties to the lowest index), and popping it by position agrees with removing
it by value. -/
theorem argmin_step (f : ℕ → ℝ) :
    ∀ (u : List ℕ), u ≠ [] → u.Pairwise (· < ·) →
      u.getD (argminIdx (u.map f)) 0 = specSelect f u ∧
      u.eraseIdx (argminIdx (u.map f)) = u.erase (specSelect f u)
  | [], h, _ => absurd rfl h
  | [x], _, _ => by
    constructor
    · simp [argminIdx, specSelect]
    · simp [argminIdx, specSelect, List.erase_cons_head]
  | x :: y :: rest, _, hs => by
    have hs' : (y :: rest).Pairwise (· < ·) := (List.pairwise_cons.mp hs).2
    have hx : ∀ b ∈ y :: rest, x < b := (List.pairwise_cons.mp hs).1
    obtain ⟨ih1, ih2⟩ := argmin_step f (y :: rest) (by simp) hs'
    have hklt : argminIdx ((y :: rest).map f) < (y :: rest).length := by
      have := argminIdx_lt_length ((y :: rest).map f) (by simp)
      simpa using this
    have hgd : ((y :: rest).map f).getD (argminIdx ((y :: rest).map f)) 0 =
        f (specSelect f (y :: rest)) := by
      rw [getD_map_eq f (y :: rest) _ hklt, ih1]
    have hxm : x < specSelect f (y :: rest) := hx _ (specSelect_mem f (y :: rest) (by simp))
    have hcond : (f (specSelect f (y :: rest)) < f x ∨
        (f (specSelect f (y :: rest)) = f x ∧ specSelect f (y :: rest) < x)) ↔
        f (specSelect f (y :: rest)) < f x := by
      constructor
      · rintro (h | ⟨_, hlt⟩)
        · exact h
        · omega
      · exact fun h => Or.inl h
    have harg : argminIdx ((x :: y :: rest).map f) =
        if f (specSelect f (y :: rest)) < f x
        then argminIdx ((y :: rest).map f) + 1 else 0 := by
      rw [show (x :: y :: rest).map f = f x :: f y :: rest.map f from by simp,
        argminIdx_cons_cons]
      rw [show (f y :: rest.map f) = (y :: rest).map f from by simp, hgd]
    by_cases hc : f (specSelect f (y :: rest)) < f x
    · have hsel : specSelect f (x :: y :: rest) = specSelect f (y :: rest) := by
        rw [specSelect_cons_cons, if_pos (hcond.mpr hc)]
      refine ⟨?_, ?_⟩
      · rw [harg, if_pos hc, hsel, List.getD_cons_succ, ih1]
      · rw [harg, if_pos hc, hsel, List.eraseIdx_cons_succ, ih2]
        have hne : x ≠ specSelect f (y :: rest) := by omega
        exact (List.erase_cons_tail (b := x) (by simpa using hne)).symm
    · have hsel : specSelect f (x :: y :: rest) = x := by
        rw [specSelect_cons_cons, if_neg (fun h => hc (hcond.mp h))]
      refine ⟨?_, ?_⟩
      · rw [harg, if_neg hc, hsel]
        simp
      · rw [harg, if_neg hc, hsel, List.erase_cons_head]
        simp [List.eraseIdx]
termination_by u => u.length

theorem nnLoop_nil (points : List P3) (current : ℕ) : nnLoop points current [] = [] := by
  rw [nnLoop]

theorem nnLoop_cons (points : List P3) (current x : ℕ) (xs : List ℕ) :
    nnLoop points current (x :: xs) =
      ((x :: xs).getD
          (argminIdx ((x :: xs).map fun i => dist3 (pt points current) (pt points i))) 0) ::
        nnLoop points
          ((x :: xs).getD
            (argminIdx ((x :: xs).map fun i => dist3 (pt points current) (pt points i))) 0)
          ((x :: xs).eraseIdx
            (argminIdx ((x :: xs).map fun i => dist3 (pt points current) (pt points i)))) := by
  rw [nnLoop]

theorem specLoop_nil (points : List P3) (current : ℕ) : specLoop points current [] = [] := by
  rw [specLoop]

theorem specLoop_cons (points : List P3) (current x : ℕ) (xs : List ℕ) :
    specLoop points current (x :: xs) =
      specSelect (fun i => dist3 (pt points current) (pt points i)) (x :: xs) ::
        specLoop points
          (specSelect (fun i => dist3 (pt points current) (pt points i)) (x :: xs))
          ((x :: xs).erase
            (specSelect (fun i => dist3 (pt points current) (pt points i)) (x :: xs))) := by
  rw [specLoop]

/-- On a strictly ascending unvisited list the source's positional greedy
loop coincides with the spec's value-based greedy loop. -/
theorem nnLoop_eq_specLoop (points : List P3) :
    ∀ (fuel : ℕ) (u : List ℕ), u.length ≤ fuel → u.Pairwise (· < ·) →
      ∀ current, nnLoop points current u = specLoop points current u := by
  intro fuel
  induction fuel with
  | zero =>
    intro u hu _ current
    have hnil : u = [] := List.length_eq_zero.mp (Nat.le_zero.mp hu)
    subst hnil
    rw [nnLoop_nil, specLoop_nil]
  | succ n ih =>
    intro u hu hs current
    match u with
    | [] => rw [nnLoop_nil, specLoop_nil]
    | x :: xs =>
      obtain ⟨h1, h2⟩ :=
        argmin_step (fun i => dist3 (pt points current) (pt points i)) (x :: xs) (by simp) hs
      rw [nnLoop_cons, specLoop_cons, h1, h2]
      congr 1
      apply ih
      · have hmem := specSelect_mem
          (fun i => dist3 (pt points current) (pt points i)) (x :: xs) (by simp)
        have hlen := List.length_erase_of_mem hmem
        simp only [List.length_cons] at hlen hu ⊢
        omega
      · exact List.Pairwise.sublist (List.erase_sublist _ _) hs

/-! ## Helper lemmas: permutation invariants -/

theorem perm_getD_cons_eraseIdx (l : List ℕ) (m : ℕ) (h : m < l.length) :
    (l.getD m 0 :: l.eraseIdx m).Perm l := by
  have hget : l.getD m 0 = l[m] := List.getD_eq_getElem l 0 h
  have hsplit : l.take m ++ l[m] :: l.drop (m + 1) = l := by
    rw [List.getElem_cons_drop, List.take_append_drop]
  rw [hget, List.eraseIdx_eq_take_drop_succ]
  calc (l[m] :: (l.take m ++ l.drop (m + 1))).Perm
        (l.take m ++ l[m] :: l.drop (m + 1)) := List.perm_middle.symm
    _ = l := hsplit

theorem nnLoop_perm (points : List P3) :
    ∀ (fuel : ℕ) (u : List ℕ), u.length ≤ fuel → ∀ current,
      (nnLoop points current u).Perm u := by
  intro fuel
  induction fuel with
  | zero =>
    intro u hu current
    have hnil : u = [] := List.length_eq_zero.mp (Nat.le_zero.mp hu)
    subst hnil
    rw [nnLoop_nil]
  | succ n ih =>
    intro u hu current
    match u with
    | [] => rw [nnLoop_nil]
    | x :: xs =>
      rw [nnLoop_cons]
      have hm : argminIdx ((x :: xs).map fun i => dist3 (pt points current) (pt points i))
          < (x :: xs).length := by
        have := argminIdx_lt_length
          ((x :: xs).map fun i => dist3 (pt points current) (pt points i)) (by simp)
        simpa using this
      have hrec := ih ((x :: xs).eraseIdx
        (argminIdx ((x :: xs).map fun i => dist3 (pt points current) (pt points i))))
        (by
          have := List.length_eraseIdx_add_one (l := x :: xs) hm
          simp only [List.length_cons] at this hu ⊢
          omega)
        ((x :: xs).getD
          (argminIdx ((x :: xs).map fun i => dist3 (pt points current) (pt points i))) 0)
      exact (List.Perm.cons _ hrec).trans (perm_getD_cons_eraseIdx (x :: xs) _ hm)

theorem reverseSegment_perm (l : List ℕ) (i j : ℕ) (hij : i ≤ j + 1) :
    (reverseSegment l i j).Perm l := by
  unfold reverseSegment
  have hdrop : (l.drop i).take (j + 1 - i) ++ l.drop (j + 1) = l.drop i := by
    have h1 : (l.drop i).drop (j + 1 - i) = l.drop (j + 1) := by
      rw [List.drop_drop]
      congr 1
      omega
    rw [← h1, List.take_append_drop]
  calc (l.take i ++ ((l.drop i).take (j + 1 - i)).reverse ++ l.drop (j + 1)).Perm
        (l.take i ++ (l.drop i).take (j + 1 - i) ++ l.drop (j + 1)) :=
      List.Perm.append_right _
        (List.Perm.append_left _ (List.reverse_perm _))
    _ = l.take i ++ ((l.drop i).take (j + 1 - i) ++ l.drop (j + 1)) := by
      rw [List.append_assoc]
    _ = l.take i ++ l.drop i := by rw [hdrop]
    _ = l := List.take_append_drop i l

theorem saCandidate_perm (st : SAState) (d : Draw) :
    (saCandidate st d).Perm st.currentPath :=
  reverseSegment_perm _ _ _ (by omega)

theorem saIter_perm (points : List P3) (temp : ℝ) (d : Draw) (st : SAState) (r : List ℕ)
    (h1 : st.currentPath.Perm r) (h2 : st.bestPath.Perm r) :
    (saIter points temp d st).currentPath.Perm r ∧
      (saIter points temp d st).bestPath.Perm r := by
  unfold saIter
  dsimp only
  split_ifs with hmin hacc hbest
  · exact ⟨h1, h2⟩
  · exact ⟨(saCandidate_perm st d).trans h1, (saCandidate_perm st d).trans h1⟩
  · exact ⟨(saCandidate_perm st d).trans h1, h2⟩
  · exact ⟨h1, h2⟩

theorem saInner_perm (points : List P3) (rng : ℕ → Draw) (temp : ℝ) (r : List ℕ) :
    ∀ (k c : ℕ) (st : SAState), st.currentPath.Perm r → st.bestPath.Perm r →
      (saInner points rng temp k c st).currentPath.Perm r ∧
        (saInner points rng temp k c st).bestPath.Perm r
  | 0, _, st, h1, h2 => ⟨h1, h2⟩
  | k + 1, c, st, h1, h2 => by
    obtain ⟨p1, p2⟩ := saIter_perm points temp (rng c) st r h1 h2
    exact saInner_perm points rng temp r k (c + 1) (saIter points temp (rng c) st) p1 p2

theorem saOuter_perm (points : List P3) (rng : ℕ → Draw) (iters : ℕ) (r : List ℕ) :
    ∀ (fuel : ℕ) (temp : ℝ) (c : ℕ) (st : SAState),
      st.currentPath.Perm r → st.bestPath.Perm r →
      ((saOuter points rng iters fuel temp c st).1.currentPath.Perm r ∧
        (saOuter points rng iters fuel temp c st).1.bestPath.Perm r)
  | 0, temp, c, st, h1, h2 => by
    unfold saOuter
    split_ifs <;> exact ⟨h1, h2⟩
  | fuel + 1, temp, c, st, h1, h2 => by
    unfold saOuter
    split_ifs with htemp
    · obtain ⟨p1, p2⟩ := saInner_perm points rng temp r iters c st h1 h2
      exact saOuter_perm points rng iters r fuel (temp * 0.95) (c + iters) _ p1 p2
    · exact ⟨h1, h2⟩

/-! ## Helper lemmas: best-cost monotonicity, the best/current invariant,
termination of the cooling loop, and the closed-cost formula -/

theorem saIter_best_le (points : List P3) (temp : ℝ) (d : Draw) (st : SAState) :
    (saIter points temp d st).bestDistance ≤ st.bestDistance := by
  unfold saIter
  dsimp only
  split_ifs with hmin hacc hbest
  · exact le_refl _
  · exact le_of_lt hbest
  · exact le_refl _
  · exact le_refl _

theorem saInner_best_le (points : List P3) (rng : ℕ → Draw) (temp : ℝ) :
    ∀ (k c : ℕ) (st : SAState),
      (saInner points rng temp k c st).bestDistance ≤ st.bestDistance
  | 0, _, st => le_refl _
  | k + 1, c, st =>
    le_trans
      (saInner_best_le points rng temp k (c + 1) (saIter points temp (rng c) st))
      (saIter_best_le points temp (rng c) st)

theorem saOuter_best_le (points : List P3) (rng : ℕ → Draw) (iters : ℕ) :
    ∀ (fuel : ℕ) (temp : ℝ) (c : ℕ) (st : SAState),
      (saOuter points rng iters fuel temp c st).1.bestDistance ≤ st.bestDistance
  | 0, temp, c, st => by
    unfold saOuter
    split_ifs <;> exact le_refl _
  | fuel + 1, temp, c, st => by
    unfold saOuter
    split_ifs with htemp
    · exact le_trans
        (saOuter_best_le points rng iters fuel (temp * 0.95) (c + iters) _)
        (saInner_best_le points rng temp iters c st)
    · exact le_refl _

theorem saIter_best_cases (points : List P3) (temp : ℝ) (d : Draw) (st : SAState) :
    ((saIter points temp d st).bestPath = st.bestPath ∧
      (saIter points temp d st).bestDistance = st.bestDistance) ∨
    (min d.a d.b ≠ max d.a d.b ∧ saAccept points temp d st ∧
      (saIter points temp d st).currentPath = saCandidate st d ∧
      (saIter points temp d st).currentDistance
        = calculate_distance points (saCandidate st d) ∧
      (saIter points temp d st).bestPath = (saIter points temp d st).currentPath ∧
      (saIter points temp d st).bestDistance = (saIter points temp d st).currentDistance ∧
      (saIter points temp d st).currentDistance < st.bestDistance) := by
  unfold saIter
  dsimp only
  split_ifs with hmin hacc hbest
  · exact Or.inl ⟨rfl, rfl⟩
  · exact Or.inr ⟨hmin, hacc, rfl, rfl, rfl, rfl, hbest⟩
  · exact Or.inl ⟨rfl, rfl⟩
  · exact Or.inl ⟨rfl, rfl⟩

theorem saIter_best_update (points : List P3) (temp : ℝ) (d : Draw) (st : SAState)
    (hne : min d.a d.b ≠ max d.a d.b) (hacc : saAccept points temp d st)
    (himp : calculate_distance points (saCandidate st d) < st.bestDistance) :
    (saIter points temp d st).bestPath = saCandidate st d ∧
      (saIter points temp d st).bestDistance
        = calculate_distance points (saCandidate st d) := by
  unfold saIter
  dsimp only
  split_ifs with h1
  · exact absurd h1 hne
  · exact ⟨rfl, rfl⟩

/-- The run-long invariant of §4.4: the best distance is the closed-tour
cost of the best path, and never exceeds the current distance. -/
def SAInv (points : List P3) (st : SAState) : Prop :=
  st.bestDistance = calculate_distance points st.bestPath ∧
    st.bestDistance ≤ st.currentDistance

theorem saIter_inv (points : List P3) (temp : ℝ) (d : Draw) (st : SAState)
    (h : SAInv points st) : SAInv points (saIter points temp d st) := by
  obtain ⟨hb, hle⟩ := h
  unfold saIter SAInv
  dsimp only
  split_ifs with hmin hacc hbest
  · exact ⟨hb, hle⟩
  · exact ⟨rfl, le_refl _⟩
  · exact ⟨hb, not_lt.mp hbest⟩
  · exact ⟨hb, hle⟩

theorem saInner_inv (points : List P3) (rng : ℕ → Draw) (temp : ℝ) :
    ∀ (k c : ℕ) (st : SAState), SAInv points st →
      SAInv points (saInner points rng temp k c st)
  | 0, _, _, h => h
  | k + 1, c, st, h =>
    saInner_inv points rng temp k (c + 1) (saIter points temp (rng c) st)
      (saIter_inv points temp (rng c) st h)

theorem saOuter_inv (points : List P3) (rng : ℕ → Draw) (iters : ℕ) :
    ∀ (fuel : ℕ) (temp : ℝ) (c : ℕ) (st : SAState), SAInv points st →
      SAInv points (saOuter points rng iters fuel temp c st).1
  | 0, temp, c, st, h => by
    unfold saOuter
    split_ifs <;> exact h
  | fuel + 1, temp, c, st, h => by
    unfold saOuter
    split_ifs with htemp
    · exact saOuter_inv points rng iters fuel (temp * 0.95) (c + iters) _
        (saInner_inv points rng temp iters c st h)
    · exact h

theorem saInit_inv (points : List P3) : SAInv points (saInit points) :=
  ⟨rfl, le_refl _⟩

theorem saOuter_halts (points : List P3) (rng : ℕ → Draw) (iters : ℕ) :
    ∀ (fuel : ℕ) (temp : ℝ) (c : ℕ) (st : SAState),
      temp * 0.95 ^ fuel ≤ 0.01 →
      (saOuter points rng iters fuel temp c st).2 = true
  | 0, temp, c, st, h => by
    rw [pow_zero, mul_one] at h
    unfold saOuter
    split_ifs with ht
    · linarith
    · rfl
  | fuel + 1, temp, c, st, h => by
    unfold saOuter
    split_ifs with ht
    · exact saOuter_halts points rng iters fuel (temp * 0.95) (c + iters) _
        (by
          have hexp : temp * 0.95 * 0.95 ^ fuel = temp * 0.95 ^ (fuel + 1) := by ring
          rw [hexp]
          exact h)
    · rfl

theorem pathSum_eq_sum (points : List P3) :
    ∀ (path : List ℕ), pathSum points path =
      ∑ i ∈ Finset.range (path.length - 1),
        dist3 (pt points (path.getD i 0)) (pt points (path.getD (i + 1) 0))
  | [] => by simp [pathSum]
  | [x] => by simp [pathSum]
  | i :: j :: rest => by
    rw [pathSum, pathSum_eq_sum points (j :: rest),
      show (i :: j :: rest).length - 1 = ((j :: rest).length - 1) + 1 from by simp,
      Finset.sum_range_succ']
    simp only [List.getD_cons_succ, List.getD_cons_zero]
    ring

/-! ## Claims -/

/-- C1: for every PointSet with `n ≥ 2` points, the nearest-neighbor
strategy and (for every sequence of random draws) the simulated-annealing
strategy each return a tour that is a permutation of `0..n-1`. -/
theorem tour_is_permutation (points : List P3) (h : 2 ≤ points.length) :
    (optimize_with_nearest_neighbor points).Perm (List.range points.length) ∧
      ∀ rng : ℕ → Draw,
        ((optimize_with_simulated_annealing points rng).1.1).Perm
          (List.range points.length) := by
  have hrange : List.range points.length = 0 :: List.range' 1 (points.length - 1) := by
    obtain ⟨k, hk⟩ : ∃ k, points.length = k + 1 := ⟨points.length - 1, by omega⟩
    rw [hk, List.range_eq_range', List.range'_succ]
    simp
  constructor
  · unfold optimize_with_nearest_neighbor
    rw [hrange]
    exact List.Perm.cons 0 (nnLoop_perm points _ _ (le_refl _) 0)
  · intro rng
    unfold optimize_with_simulated_annealing
    dsimp only
    exact (saOuter_perm points rng _ (List.range points.length) saFuel 100 0 (saInit points)
      (List.Perm.refl _) (List.Perm.refl _)).2

theorem tour_is_permutation_witness :
    ((optimize_with_nearest_neighbor [⟨0, 0, 0⟩, ⟨3, 0, 0⟩]).Perm (List.range 2)) ∧
      (((optimize_with_simulated_annealing [⟨0, 0, 0⟩, ⟨3, 0, 0⟩]
          (fun _ => ⟨0, 1, 0⟩)).1.1).Perm (List.range 2)) := by
  have h := tour_is_permutation [⟨0, 0, 0⟩, ⟨3, 0, 0⟩] (by simp)
  exact ⟨by simpa using h.1, by simpa using h.2 (fun _ => ⟨0, 1, 0⟩)⟩

/-- C2: for every PointSet with `n ≥ 2` points and the 3D metric, the
nearest-neighbor strategy is deterministic and coincides with the spec's
reference greedy algorithm (start at 0; repeatedly append the unvisited
index of minimum distance from the current last point, ties to the lowest
index). -/
theorem nearest_neighbor_matches_reference (points : List P3) (h : 2 ≤ points.length) :
    optimize_with_nearest_neighbor points = nnSpec points := by
  unfold optimize_with_nearest_neighbor nnSpec
  congr 1
  exact nnLoop_eq_specLoop points _ _ (le_refl _)
    (List.pairwise_lt_range' 1 (points.length - 1)) 0

theorem nearest_neighbor_matches_reference_witness :
    2 ≤ ([⟨0, 0, 0⟩, ⟨1, 0, 0⟩, ⟨2, 0, 0⟩] : List P3).length ∧
      optimize_with_nearest_neighbor [⟨0, 0, 0⟩, ⟨1, 0, 0⟩, ⟨2, 0, 0⟩]
        = nnSpec [⟨0, 0, 0⟩, ⟨1, 0, 0⟩, ⟨2, 0, 0⟩] :=
  ⟨by simp, nearest_neighbor_matches_reference _ (by simp)⟩

/-- C3: within one simulated-annealing run the best cost is monotonically
non-increasing through every iteration, inner loop and outer loop, and
`bestTour`/`bestCost` change exactly when an accepted move makes the new
current cost strictly smaller than the best cost (in which case they become
the new current tour and cost). -/
theorem sa_best_cost_monotone (points : List P3) (rng : ℕ → Draw) :
    (∀ (temp : ℝ) (d : Draw) (st : SAState),
        (saIter points temp d st).bestDistance ≤ st.bestDistance) ∧
    (∀ (temp : ℝ) (k c : ℕ) (st : SAState),
        (saInner points rng temp k c st).bestDistance ≤ st.bestDistance) ∧
    (∀ (iters fuel : ℕ) (temp : ℝ) (c : ℕ) (st : SAState),
        (saOuter points rng iters fuel temp c st).1.bestDistance ≤ st.bestDistance) ∧
    (∀ (temp : ℝ) (d : Draw) (st : SAState),
        ((saIter points temp d st).bestPath = st.bestPath ∧
          (saIter points temp d st).bestDistance = st.bestDistance) ∨
        (min d.a d.b ≠ max d.a d.b ∧ saAccept points temp d st ∧
          (saIter points temp d st).currentPath = saCandidate st d ∧
          (saIter points temp d st).currentDistance
            = calculate_distance points (saCandidate st d) ∧
          (saIter points temp d st).bestPath = (saIter points temp d st).currentPath ∧
          (saIter points temp d st).bestDistance
            = (saIter points temp d st).currentDistance ∧
          (saIter points temp d st).currentDistance < st.bestDistance)) ∧
    (∀ (temp : ℝ) (d : Draw) (st : SAState),
        min d.a d.b ≠ max d.a d.b → saAccept points temp d st →
        calculate_distance points (saCandidate st d) < st.bestDistance →
        (saIter points temp d st).bestPath = saCandidate st d ∧
          (saIter points temp d st).bestDistance
            = calculate_distance points (saCandidate st d)) :=
  ⟨fun temp d st => saIter_best_le points temp d st,
   fun temp k c st => saInner_best_le points rng temp k c st,
   fun iters fuel temp c st => saOuter_best_le points rng iters fuel temp c st,
   fun temp d st => saIter_best_cases points temp d st,
   fun temp d st => saIter_best_update points temp d st⟩

theorem sa_best_cost_monotone_witness :
    (saIter [⟨0, 0, 0⟩, ⟨1, 0, 0⟩] 50 ⟨0, 1, 0⟩
        ⟨[0, 1], 2, [0, 1], 2⟩).bestDistance ≤ 2 :=
  (sa_best_cost_monotone [⟨0, 0, 0⟩, ⟨1, 0, 0⟩] (fun _ => ⟨0, 1, 0⟩)).1
    50 ⟨0, 1, 0⟩ ⟨[0, 1], 2, [0, 1], 2⟩

/-- C4: the simulated-annealing strategy initializes its current tour to
the identity permutation `0..n-1` (with best equal to current), and its
cost function evaluates every tour as a closed tour: the sum of 3D
Euclidean distances between consecutive entries plus the distance from the
last entry back to the first. -/
theorem sa_init_and_closed_cost (points : List P3) :
    (saInit points).currentPath = List.range points.length ∧
    (saInit points).bestPath = List.range points.length ∧
    (saInit points).currentDistance
      = calculate_distance points (List.range points.length) ∧
    (saInit points).bestDistance = (saInit points).currentDistance ∧
    ∀ path : List ℕ,
      calculate_distance points path =
        (∑ i ∈ Finset.range (path.length - 1),
          dist3 (pt points (path.getD i 0)) (pt points (path.getD (i + 1) 0)))
        + dist3 (pt points (path.getLastD 0)) (pt points (path.headD 0)) := by
  refine ⟨rfl, rfl, rfl, rfl, fun path => ?_⟩
  unfold calculate_distance
  rw [pathSum_eq_sum]

/-- C7: calling the optimization entry point with fewer than 2 points
fails with `InsufficientPoints` for every strategy name before any
strategy code runs; the stored optimized path is left unchanged. -/
theorem insufficient_points_rejected (st : AppState) (algorithm : String)
    (rng : ℕ → Draw) (solver : List P3 → Option (List ℕ))
    (h : st.coordinates.length < 2) :
    run_optimization st algorithm rng solver = (st, some OptError.insufficientPoints) := by
  unfold run_optimization
  rw [if_pos h]

theorem insufficient_points_rejected_witness :
    run_optimization ⟨[⟨0, 0, 0⟩], [2, 0, 1]⟩ "全局优化 (模拟退火)"
        (fun _ => ⟨0, 0, 0⟩) (fun _ => none)
      = (⟨[⟨0, 0, 0⟩], [2, 0, 1]⟩, some OptError.insufficientPoints) :=
  insufficient_points_rejected _ _ _ _ (by simp)

/-- C8: the simulated-annealing run terminates for every input: cooling
from `100.0` by factor `0.95` makes the loop condition `temp > 0.01` fail
within the fuel bound (`100 · 0.95^200 ≤ 0.01`), so the fuelled loop always
reports regular termination. -/
theorem sa_terminates (points : List P3) (rng : ℕ → Draw) (h : 2 ≤ points.length) :
    (optimize_with_simulated_annealing points rng).2 = true ∧
      (100 : ℝ) * 0.95 ^ saFuel ≤ 0.01 := by
  have hpow : (100 : ℝ) * 0.95 ^ saFuel ≤ 0.01 := by
    unfold saFuel
    norm_num
  refine ⟨?_, hpow⟩
  unfold optimize_with_simulated_annealing
  dsimp only
  exact saOuter_halts points rng _ saFuel 100 0 (saInit points) hpow

theorem sa_terminates_witness :
    (optimize_with_simulated_annealing [⟨0, 0, 0⟩, ⟨1, 1, 0⟩] (fun _ => ⟨1, 0, 0⟩)).2
      = true :=
  (sa_terminates [⟨0, 0, 0⟩, ⟨1, 1, 0⟩] (fun _ => ⟨1, 0, 0⟩) (by simp)).1

/-- C10: throughout every simulated-annealing run and for every sequence
of random draws, the best distance equals the closed-tour length of the
best path and never exceeds the current distance; in particular the
distance reported at the end of the run is exactly the closed-tour cost of
the path returned with it. -/
theorem sa_best_distance_consistent (points : List P3) (rng : ℕ → Draw)
    (h : 2 ≤ points.length) :
    (∀ (temp : ℝ) (d : Draw) (st : SAState),
        SAInv points st → SAInv points (saIter points temp d st)) ∧
    (∀ (iters fuel : ℕ) (temp : ℝ) (c : ℕ) (st : SAState),
        SAInv points st → SAInv points (saOuter points rng iters fuel temp c st).1) ∧
    SAInv points (saInit points) ∧
    (optimize_with_simulated_annealing points rng).1.2
      = calculate_distance points (optimize_with_simulated_annealing points rng).1.1 := by
  refine ⟨fun temp d st => saIter_inv points temp d st,
    fun iters fuel temp c st => saOuter_inv points rng iters fuel temp c st,
    saInit_inv points, ?_⟩
  unfold optimize_with_simulated_annealing
  dsimp only
  exact (saOuter_inv points rng _ saFuel 100 0 (saInit points) (saInit_inv points)).1

theorem sa_best_distance_consistent_witness :
    (optimize_with_simulated_annealing [⟨0, 0, 0⟩, ⟨2, 0, 0⟩] (fun _ => ⟨0, 1, 0⟩)).1.2
      = calculate_distance [⟨0, 0, 0⟩, ⟨2, 0, 0⟩]
          (optimize_with_simulated_annealing [⟨0, 0, 0⟩, ⟨2, 0, 0⟩]
            (fun _ => ⟨0, 1, 0⟩)).1.1 :=
  (sa_best_distance_consistent [⟨0, 0, 0⟩, ⟨2, 0, 0⟩] (fun _ => ⟨0, 1, 0⟩) (by simp)).2.2.2

/-- C5 counterexample: on the points `(0,0,0)` and `(1.2575,0,0)` the
distance is `1.2575`, the source's cost entry `int(d*100)` is `125`,
whereas `round(d*100)` is `126`, and the recovered `125/100 = 1.25`
diverges from `d` by `0.0075 > 0.005`. -/
theorem ortools_cost_not_rounded :
    ortoolsCost [⟨0, 0, 0⟩, ⟨1.2575, 0, 0⟩] 0 1 = 125 ∧
    round (dist3 (pt [⟨0, 0, 0⟩, ⟨1.2575, 0, 0⟩] 0)
        (pt [⟨0, 0, 0⟩, ⟨1.2575, 0, 0⟩] 1) * 100) = (126 : ℤ) ∧
    ¬ |(ortoolsCost [⟨0, 0, 0⟩, ⟨1.2575, 0, 0⟩] 0 1 : ℝ) / 100
        - dist3 (pt [⟨0, 0, 0⟩, ⟨1.2575, 0, 0⟩] 0)
            (pt [⟨0, 0, 0⟩, ⟨1.2575, 0, 0⟩] 1)| ≤ 5 / 1000 := by
  have hp0 : pt [(⟨0, 0, 0⟩ : P3), ⟨1.2575, 0, 0⟩] 0 = ⟨0, 0, 0⟩ := rfl
  have hp1 : pt [(⟨0, 0, 0⟩ : P3), ⟨1.2575, 0, 0⟩] 1 = ⟨1.2575, 0, 0⟩ := rfl
  have hd : dist3 (pt [(⟨0, 0, 0⟩ : P3), ⟨1.2575, 0, 0⟩] 0)
      (pt [(⟨0, 0, 0⟩ : P3), ⟨1.2575, 0, 0⟩] 1) = 1.2575 := by
    rw [hp0, hp1]
    unfold dist3
    rw [show ((0 : ℝ) - 1.2575) ^ 2 + ((0 : ℝ) - 0) ^ 2 + ((0 : ℝ) - 0) ^ 2
        = 1.2575 ^ 2 from by norm_num]
    exact Real.sqrt_sq (by norm_num)
  have hfloor : ⌊(1.2575 : ℝ) * 100⌋ = (125 : ℤ) := by
    rw [Int.floor_eq_iff]
    norm_num
  refine ⟨?_, ?_, ?_⟩
  · unfold ortoolsCost pyInt
    rw [hd, if_pos (by norm_num), hfloor]
  · rw [hd, round_eq]
    rw [show (1.2575 : ℝ) * 100 + 1 / 2 = 126.25 from by norm_num]
    rw [Int.floor_eq_iff]
    norm_num
  · unfold ortoolsCost pyInt
    rw [hd, if_pos (by norm_num), hfloor]
    intro habs
    rw [abs_le] at habs
    have := habs.1
    norm_num at this

/-- C5 amended: the integer cost matrix entry of both external-solver
adapters equals the floor `⌊d·100⌋` (Python `int()` truncation) of the
scaled distance, not its rounding; consequently `cost/100` never exceeds
`d` and underestimates it by strictly less than `0.01` (not `0.005`). -/
theorem ortools_cost_truncates (points : List P3) (i j : ℕ) :
    ortoolsCost points i j = ⌊dist3 (pt points i) (pt points j) * 100⌋ ∧
    (ortoolsCost points i j : ℝ) / 100 ≤ dist3 (pt points i) (pt points j) ∧
    dist3 (pt points i) (pt points j) - (ortoolsCost points i j : ℝ) / 100 < 1 / 100 ∧
    xyCost points i j = ⌊dist2 (pt points i) (pt points j) * 100⌋ ∧
    (xyCost points i j : ℝ) / 100 ≤ dist2 (pt points i) (pt points j) ∧
    dist2 (pt points i) (pt points j) - (xyCost points i j : ℝ) / 100 < 1 / 100 := by
  have h3 : (0 : ℝ) ≤ dist3 (pt points i) (pt points j) := Real.sqrt_nonneg _
  have h2 : (0 : ℝ) ≤ dist2 (pt points i) (pt points j) := Real.sqrt_nonneg _
  have e3 : ortoolsCost points i j = ⌊dist3 (pt points i) (pt points j) * 100⌋ := by
    unfold ortoolsCost pyInt
    rw [if_pos (by nlinarith)]
  have e2 : xyCost points i j = ⌊dist2 (pt points i) (pt points j) * 100⌋ := by
    unfold xyCost pyInt
    rw [if_pos (by nlinarith)]
  have f3l := Int.floor_le (dist3 (pt points i) (pt points j) * 100)
  have f3u := Int.lt_floor_add_one (dist3 (pt points i) (pt points j) * 100)
  have f2l := Int.floor_le (dist2 (pt points i) (pt points j) * 100)
  have f2u := Int.lt_floor_add_one (dist2 (pt points i) (pt points j) * 100)
  refine ⟨e3, ?_, ?_, e2, ?_, ?_⟩
  · rw [e3]; linarith
  · rw [e3]; linarith
  · rw [e2]; linarith
  · rw [e2]; linarith

/-- C6 counterexample: the Tour Evaluator does not fail on the empty tour
(it returns `0`), nor on a one-entry tour whose only index is out of range
(the generator over `range(1, len(path))` never touches the array). -/
theorem evaluator_accepts_empty_tour :
    calcDistance3d [⟨0, 0, 0⟩] [] = some 0 ∧
      calcDistance3d [⟨0, 0, 0⟩] [5] = some 0 := by
  constructor <;> simp [calcDistance3d, pathSum]

/-- C6 amended: the Tour Evaluator fails exactly when the tour has at
least two entries and one of them is an index outside `0..n-1`; tours with
fewer than two entries are accepted with total length `0`, and tours whose
entries are all in range are accepted with the open-path sum. -/
theorem evaluator_range_check (points : List P3) (path : List ℕ) :
    (calcDistance3d points path = none ↔
      2 ≤ path.length ∧ ∃ i ∈ path, points.length ≤ i) ∧
    (path.length < 2 → calcDistance3d points path = some (0 : ℝ)) ∧
    ((∀ i ∈ path, i < points.length) →
      calcDistance3d points path = some (pathSum points path)) := by
  refine ⟨⟨?_, ?_⟩, ?_, ?_⟩
  · intro h
    unfold calcDistance3d at h
    by_cases hc : 2 ≤ path.length ∧ ¬(path.all fun i => i < points.length)
    · obtain ⟨hl, ha⟩ := hc
      refine ⟨hl, ?_⟩
      simp only [List.all_eq_true, decide_eq_true_eq, not_forall] at ha
      obtain ⟨i, hi, hge⟩ := ha
      exact ⟨i, hi, by omega⟩
    · rw [if_neg hc] at h
      exact absurd h (by simp)
  · rintro ⟨hl, i, hi, hge⟩
    unfold calcDistance3d
    rw [if_pos ⟨hl, by
      simp only [List.all_eq_true, decide_eq_true_eq, not_forall]
      exact ⟨i, hi, by omega⟩⟩]
  · intro hlt
    unfold calcDistance3d
    rw [if_neg (fun hc => by omega)]
    match path, hlt with
    | [], _ => rfl
    | [x], _ => rfl
  · intro hall
    unfold calcDistance3d
    rw [if_neg]
    rintro ⟨_, ha⟩
    exact ha (by
      simp only [List.all_eq_true, decide_eq_true_eq]
      exact hall)

theorem evaluator_range_check_witness :
    calcDistance3d [⟨0, 0, 0⟩, ⟨1, 0, 0⟩] [0, 7] = none :=
  ((evaluator_range_check [⟨0, 0, 0⟩, ⟨1, 0, 0⟩] [0, 7]).1).mpr
    ⟨by simp, 7, by simp, by simp⟩

/-- The four corners of the spec's concrete scenario:
`(0,0,0)`, `(10,0,0)`, `(10,10,0)`, `(0,10,0)`. -/
def squarePts : List P3 := [⟨0, 0, 0⟩, ⟨10, 0, 0⟩, ⟨10, 10, 0⟩, ⟨0, 10, 0⟩]

/-- C9: on the four square corners, the nearest-neighbor strategy returns
exactly the tour `[0,1,2,3]`, and the Tour Evaluator gives it open-path
length `30`. -/
theorem nn_square_scenario :
    optimize_with_nearest_neighbor squarePts = [0, 1, 2, 3] ∧
      calcDistance3d squarePts [0, 1, 2, 3] = some 30 := by
  have sqrt100 : Real.sqrt 100 = 10 := by
    rw [show (100 : ℝ) = 10 ^ 2 from by norm_num]
    exact Real.sqrt_sq (by norm_num)
  have h200 : ¬ Real.sqrt 200 < 10 := by
    rw [not_lt, ← sqrt100]
    exact Real.sqrt_le_sqrt (by norm_num)
  have h200' : (10 : ℝ) < Real.sqrt 200 := by
    rw [← sqrt100]
    exact Real.sqrt_lt_sqrt (by norm_num) (by norm_num)
  have p0 : pt squarePts 0 = ⟨0, 0, 0⟩ := rfl
  have p1 : pt squarePts 1 = ⟨10, 0, 0⟩ := rfl
  have p2 : pt squarePts 2 = ⟨10, 10, 0⟩ := rfl
  have p3 : pt squarePts 3 = ⟨0, 10, 0⟩ := rfl
  have e01 : dist3 (pt squarePts 0) (pt squarePts 1) = 10 := by
    rw [p0, p1]; unfold dist3; norm_num [sqrt100]
  have e02 : dist3 (pt squarePts 0) (pt squarePts 2) = Real.sqrt 200 := by
    rw [p0, p2]; unfold dist3; norm_num
  have e03 : dist3 (pt squarePts 0) (pt squarePts 3) = 10 := by
    rw [p0, p3]; unfold dist3; norm_num [sqrt100]
  have e12 : dist3 (pt squarePts 1) (pt squarePts 2) = 10 := by
    rw [p1, p2]; unfold dist3; norm_num [sqrt100]
  have e13 : dist3 (pt squarePts 1) (pt squarePts 3) = Real.sqrt 200 := by
    rw [p1, p3]; unfold dist3; norm_num
  have e23 : dist3 (pt squarePts 2) (pt squarePts 3) = 10 := by
    rw [p2, p3]; unfold dist3; norm_num [sqrt100]
  have m0 : argminIdx [(10 : ℝ), Real.sqrt 200, 10] = 0 := by
    simp [argminIdx, h200, h200']
  have m1 : argminIdx [(10 : ℝ), Real.sqrt 200] = 0 := by
    simp [argminIdx, h200]
  have m2 : argminIdx [(10 : ℝ)] = 0 := rfl
  have step3 : nnLoop squarePts 2 [3] = [3] := by
    rw [nnLoop_cons]
    simp only [List.map_cons, List.map_nil, e23, m2]
    rw [show ([3] : List ℕ).eraseIdx 0 = [] from rfl, nnLoop_nil]
    rfl
  have step2 : nnLoop squarePts 1 [2, 3] = [2, 3] := by
    rw [nnLoop_cons]
    simp only [List.map_cons, List.map_nil, e12, e13, m1]
    rw [show ([2, 3] : List ℕ).eraseIdx 0 = [3] from rfl,
      show ([2, 3] : List ℕ).getD 0 0 = 2 from rfl, step3]
  have step1 : nnLoop squarePts 0 [1, 2, 3] = [1, 2, 3] := by
    rw [nnLoop_cons]
    simp only [List.map_cons, List.map_nil, e01, e02, e03, m0]
    rw [show ([1, 2, 3] : List ℕ).eraseIdx 0 = [2, 3] from rfl,
      show ([1, 2, 3] : List ℕ).getD 0 0 = 1 from rfl, step2]
  constructor
  · unfold optimize_with_nearest_neighbor
    rw [show List.range' 1 (squarePts.length - 1) = [1, 2, 3] from rfl, step1]
  · unfold calcDistance3d
    rw [if_neg (by simp [squarePts])]
    rw [show pathSum squarePts [0, 1, 2, 3]
        = dist3 (pt squarePts 0) (pt squarePts 1)
          + (dist3 (pt squarePts 1) (pt squarePts 2)
            + (dist3 (pt squarePts 2) (pt squarePts 3) + 0)) from by
      simp [pathSum]]
    rw [e01, e12, e23]
    norm_num

end CoordSorter
